import Mathlib

/-!
Shallow embedding of `src/main.ts` of step-security/get-secretmanager-secrets.

The observable behaviour of the action is a sequence of calls into the GitHub
Actions runner (`setSecret`, `setOutput`, `exportVariable`, `setFailed`,
`info`, `error`) plus network fetches and a possible `process.exit`.  We
model one run as the list of these events, in the order the code emits
them.  The external collaborators that are not part of the `src/`
of this repository (the secret-store client `./client`, the reference parser
`./reference`, and the HTTP reply of the subscription endpoint) enter the
model as parameters: a fetch oracle `SecretRef → Except String String`,
an already-parsed reference list, and a three-valued subscription reply.
-/

/-- A parsed secret reference.  The real `Reference` class lives in
`./reference` (outside `src/`); `run` only uses its `output` field, so we
keep the source locator abstract as one string. -/
structure SecretRef where
  loc : String
  output : String
deriving DecidableEq, Repr

/-- One observable action of the program: a call into the primitives of the
runner, a network fetch of one reference, or a process exit. -/
inductive Event where
  | fetch (ref : SecretRef)
  | setSecret (s : String)
  | setOutput (name value : String)
  | exportVariable (name value : String)
  | setFailed (msg : String)
  | info (msg : String)
  | errorLog (msg : String)
  | processExit (code : Nat)
deriving DecidableEq, Repr

/-- One character of the line split: state is (finished lines, current
line, previous char was a `\r`).  A `\n` directly after a `\r` belongs to
the same `\r\n` separator and produces no extra break. -/
def splitStep (st : List String × String × Bool) (c : Char) : List String × String × Bool :=
  if st.2.2 && c = '\n' then (st.1, st.2.1, false)
  else if c = '\r' then (st.1 ++ [st.2.1], "", true)
  else if c = '\n' then (st.1 ++ [st.2.1], "", false)
  else (st.1, st.2.1.push c, false)

/-- Model of `value.split(/\r\n|\r|\n/g)` (line 75 of `main.ts`): `\r\n` is one
separator, lone `\r` and lone `\n` each separate, empty segments are
kept (JavaScript `String.prototype.split` semantics). -/
def splitLines (s : String) : List String :=
  let st := s.data.foldl splitStep ([], "", false)
  st.1 ++ [st.2.1]

/-- Embeds `line.length >= minMaskLength` where `minMaskLength` may be `NaN`
(modelled as `none`): every comparison against `NaN` is `false` in
JavaScript. -/
def longEnough (mml : Option Int) (line : String) : Bool :=
  match mml with
  | none => false
  | some m => (line.length : Int) ≥ m

/-- The masking loop of lines 75–82 of `main.ts`: for each line of the
split value, `if (line && line.length >= minMaskLength) setSecret(line)`.
The JavaScript truthiness test `line` is `¬ line.isEmpty`. -/
def maskEvents (mml : Option Int) (value : String) : List Event :=
  (splitLines value).foldr
    (fun line acc =>
      (if !line.isEmpty && longEnough mml line then [Event.setSecret line] else []) ++ acc)
    []

/-- One iteration of the `for (const ref of secretsRefs)` loop (lines
70–89): fetch the value, then mask, then `setOutput`, then optionally
`exportVariable`.  A failing fetch throws: the iteration contributes only
its fetch event and the error propagates. -/
def processRef (fetch : SecretRef → Except String String) (mml : Option Int)
    (exportEnv : Bool) (ref : SecretRef) : List Event × Option String :=
  match fetch ref with
  | .error e => ([Event.fetch ref], some e)
  | .ok value =>
    (Event.fetch ref :: maskEvents mml value ++ [Event.setOutput ref.output value] ++
      (if exportEnv then [Event.exportVariable ref.output value] else []), none)

/-- The sequential loop over the parsed references: each iteration is
awaited to completion; a thrown error stops the loop at once. -/
def runLoop (fetch : SecretRef → Except String String) (mml : Option Int)
    (exportEnv : Bool) : List SecretRef → List Event × Option String
  | [] => ([], none)
  | ref :: rest =>
    let p := processRef fetch mml exportEnv ref
    match p.2 with
    | some e => (p.1, some e)
    | none =>
      (p.1 ++ (runLoop fetch mml exportEnv rest).1, (runLoop fetch mml exportEnv rest).2)

/-- Outcome of the HTTP GET to the subscription endpoint, as the code
distinguishes it: success, an axios error with response status 403, or
any other failure (timeout, unreachable, non-403 error). -/
inductive SubResp where
  | ok
  | forbidden
  | otherFail
deriving DecidableEq, Repr

def subscriptionMsg : String := "Subscription is not valid. Reach out to support@stepsecurity.io"

def softFailMsg : String := "Timeout or API not reachable. Continuing to next step."

/-- Embeds `validateSubscription` (lines 33–46): its emitted events and whether
it called `process.exit(1)` (which terminates the whole process). -/
def validateSubscription : SubResp → List Event × Bool
  | .ok => ([], false)
  | .forbidden => ([Event.errorLog subscriptionMsg, Event.processExit 1], true)
  | .otherFail => ([Event.info softFailMsg], false)

/-- Model of JavaScript `parseInt(s)` restricted to optionally signed
decimal numerals after leading whitespace (the hexadecimal `0x` prefix
case does not arise here); `none` models `NaN`. -/
def jsParseInt (s : String) : Option Int :=
  let cs := s.data.dropWhile (fun c => c = ' ' || c = '\t' || c = '\n' || c = '\r')
  let signAndRest : Int × List Char :=
    match cs with
    | '-' :: rest => (-1, rest)
    | '+' :: rest => (1, rest)
    | _ => (1, cs)
  let digits := signAndRest.2.takeWhile Char.isDigit
  if digits.isEmpty then none
  else some (signAndRest.1 *
    (digits.foldl (fun acc c => acc * 10 + (c.toNat - '0'.toNat)) 0 : Nat))

def failMsgStart : String := "step-security/get-secretmanager-secrets failed with: "

/-- Embeds `run` (lines 52–94): pre-flight subscription check (a 403 exits the
process before anything else happens), then `minMaskLength = parseInt(...)`
on the min_mask_length input, then the sequential fetch loop;
a thrown error reaches the catch, which calls `setFailed` with the
prefixed human-readable message. -/
def run (subResp : SubResp) (minMaskInput : String) (exportEnv : Bool)
    (refs : List SecretRef) (fetch : SecretRef → Except String String) : List Event :=
  let sub := validateSubscription subResp
  if sub.2 then sub.1
  else
    let minMaskLength := jsParseInt minMaskInput
    let loop := runLoop fetch minMaskLength exportEnv refs
    match loop.2 with
    | none => sub.1 ++ loop.1
    | some e => sub.1 ++ loop.1 ++ [Event.setFailed (failMsgStart ++ e)]

/-- Event classifiers used in the trace statements. -/
def isSetSecret : Event → Bool
  | .setSecret _ => true
  | _ => false

def isPublish : Event → Bool
  | .setOutput _ _ => true
  | .exportVariable _ _ => true
  | _ => false

def isSetOutput : Event → Bool
  | .setOutput _ _ => true
  | _ => false

def isFetch : Event → Bool
  | .fetch _ => true
  | _ => false

theorem maskEvents_eq_filter_map (mml : Option Int) (v : String) :
    maskEvents mml v =
      ((splitLines v).filter (fun l => !l.isEmpty && longEnough mml l)).map Event.setSecret := by
  unfold maskEvents
  induction splitLines v with
  | nil => rfl
  | cons l ls ih =>
    rw [List.foldr_cons, ih, List.filter_cons]
    by_cases h : (!l.isEmpty && longEnough mml l) = true
    · rw [if_pos h, if_pos h]
      rfl
    · rw [if_neg h, if_neg h]
      rfl

theorem mem_maskEvents {e : Event} {mml : Option Int} {v : String}
    (h : e ∈ maskEvents mml v) : ∃ s, e = Event.setSecret s := by
  rw [maskEvents_eq_filter_map] at h
  obtain ⟨l, -, rfl⟩ := List.mem_map.mp h
  exact ⟨l, rfl⟩

theorem maskEvents_none (v : String) : maskEvents none v = [] := by
  rw [maskEvents_eq_filter_map]
  simp [longEnough]

theorem processRef_ok {fetch : SecretRef → Except String String} {ref : SecretRef} {v : String}
    (mml : Option Int) (exportEnv : Bool) (h : fetch ref = .ok v) :
    processRef fetch mml exportEnv ref =
      (Event.fetch ref :: (maskEvents mml v ++ [Event.setOutput ref.output v] ++
        (if exportEnv then [Event.exportVariable ref.output v] else [])), none) := by
  simp [processRef, h]

theorem processRef_error {fetch : SecretRef → Except String String} {ref : SecretRef} {e : String}
    (mml : Option Int) (exportEnv : Bool) (h : fetch ref = .error e) :
    processRef fetch mml exportEnv ref = ([Event.fetch ref], some e) := by
  simp [processRef, h]

theorem fetch_mem_processRef {fetch : SecretRef → Except String String}
    {mml : Option Int} {exportEnv : Bool} {r x : SecretRef}
    (h : Event.fetch x ∈ (processRef fetch mml exportEnv r).1) : x = r := by
  rcases hf : fetch r with e | v
  · rw [processRef_error mml exportEnv hf] at h
    simpa using h
  · rw [processRef_ok mml exportEnv hf, maskEvents_eq_filter_map] at h
    rcases exportEnv <;> simpa using h

theorem setFailed_not_mem_processRef {fetch : SecretRef → Except String String}
    {mml : Option Int} {exportEnv : Bool} {r : SecretRef} {m : String} :
    Event.setFailed m ∉ (processRef fetch mml exportEnv r).1 := by
  intro h
  rcases hf : fetch r with e | v
  · rw [processRef_error mml exportEnv hf] at h
    simp at h
  · rw [processRef_ok mml exportEnv hf, maskEvents_eq_filter_map] at h
    rcases exportEnv <;> simp at h

theorem processExit_not_mem_processRef {fetch : SecretRef → Except String String}
    {mml : Option Int} {exportEnv : Bool} {r : SecretRef} {c : Nat} :
    Event.processExit c ∉ (processRef fetch mml exportEnv r).1 := by
  intro h
  rcases hf : fetch r with e | v
  · rw [processRef_error mml exportEnv hf] at h
    simp at h
  · rw [processRef_ok mml exportEnv hf, maskEvents_eq_filter_map] at h
    rcases exportEnv <;> simp at h

theorem setSecret_mem_processRef {fetch : SecretRef → Except String String}
    {mml : Option Int} {exportEnv : Bool} {r : SecretRef} {l : String}
    (h : Event.setSecret l ∈ (processRef fetch mml exportEnv r).1) :
    ∃ v, fetch r = .ok v ∧ Event.setSecret l ∈ maskEvents mml v := by
  rcases hf : fetch r with e | v
  · rw [processRef_error mml exportEnv hf] at h
    simp at h
  · refine ⟨v, rfl, ?_⟩
    rw [processRef_ok mml exportEnv hf, maskEvents_eq_filter_map] at h
    rw [maskEvents_eq_filter_map]
    rcases exportEnv <;> simp at h ⊢ <;> exact h

theorem setOutput_mem_processRef {fetch : SecretRef → Except String String} {r : SecretRef}
    {v : String} (mml : Option Int) (exportEnv : Bool) (h : fetch r = .ok v) :
    Event.setOutput r.output v ∈ (processRef fetch mml exportEnv r).1 := by
  rw [processRef_ok mml exportEnv h]
  simp

theorem runLoop_cons_ok {fetch : SecretRef → Except String String} {r : SecretRef} {v : String}
    (mml : Option Int) (exportEnv : Bool) (rs : List SecretRef) (h : fetch r = .ok v) :
    runLoop fetch mml exportEnv (r :: rs) =
      ((processRef fetch mml exportEnv r).1 ++ (runLoop fetch mml exportEnv rs).1,
        (runLoop fetch mml exportEnv rs).2) := by
  simp [runLoop, processRef_ok mml exportEnv h]

theorem runLoop_cons_error {fetch : SecretRef → Except String String} {r : SecretRef} {e : String}
    (mml : Option Int) (exportEnv : Bool) (rs : List SecretRef) (h : fetch r = .error e) :
    runLoop fetch mml exportEnv (r :: rs) = ([Event.fetch r], some e) := by
  simp [runLoop, processRef_error mml exportEnv h]

theorem runLoop_all_ok {fetch : SecretRef → Except String String} (mml : Option Int)
    (exportEnv : Bool) {refs : List SecretRef}
    (hall : ∀ r ∈ refs, ∃ v, fetch r = .ok v) :
    runLoop fetch mml exportEnv refs =
      ((refs.map fun r => (processRef fetch mml exportEnv r).1).flatten, none) := by
  induction refs with
  | nil => rfl
  | cons r rs ih =>
    obtain ⟨v, hv⟩ := hall r (by simp)
    rw [runLoop_cons_ok mml exportEnv rs hv, ih (fun r' hr' => hall r' (by simp [hr']))]
    simp

theorem runLoop_fail {fetch : SecretRef → Except String String} {pre : List SecretRef}
    {r : SecretRef} {e : String} (mml : Option Int) (exportEnv : Bool) (post : List SecretRef)
    (hpre : ∀ r' ∈ pre, ∃ v, fetch r' = .ok v) (he : fetch r = .error e) :
    runLoop fetch mml exportEnv (pre ++ r :: post) =
      ((pre.map fun r' => (processRef fetch mml exportEnv r').1).flatten ++ [Event.fetch r],
        some e) := by
  induction pre with
  | nil =>
    rw [List.nil_append, runLoop_cons_error mml exportEnv post he]
    simp
  | cons p ps ih =>
    obtain ⟨v, hv⟩ := hpre p (by simp)
    rw [List.cons_append, runLoop_cons_ok mml exportEnv _ hv,
      ih (fun r' hr' => hpre r' (by simp [hr']))]
    simp

theorem mem_runLoop {fetch : SecretRef → Except String String} {mml : Option Int}
    {exportEnv : Bool} {refs : List SecretRef} {ev : Event}
    (h : ev ∈ (runLoop fetch mml exportEnv refs).1) :
    ∃ r ∈ refs, ev ∈ (processRef fetch mml exportEnv r).1 := by
  induction refs with
  | nil => simp [runLoop] at h
  | cons r rs ih =>
    rcases hf : fetch r with e | v
    · rw [runLoop_cons_error mml exportEnv rs hf] at h
      refine ⟨r, by simp, ?_⟩
      rw [processRef_error mml exportEnv hf]
      exact h
    · rw [runLoop_cons_ok mml exportEnv rs hf] at h
      rcases List.mem_append.mp h with h | h
      · exact ⟨r, by simp, h⟩
      · obtain ⟨r', hr', hm⟩ := ih h
        exact ⟨r', by simp [hr'], hm⟩

theorem run_forbidden_eq (s : String) (exportEnv : Bool) (refs : List SecretRef)
    (fetch : SecretRef → Except String String) :
    run .forbidden s exportEnv refs fetch =
      [Event.errorLog subscriptionMsg, Event.processExit 1] := rfl

theorem run_otherFail_eq (s : String) (exportEnv : Bool) (refs : List SecretRef)
    (fetch : SecretRef → Except String String) :
    run .otherFail s exportEnv refs fetch = Event.info softFailMsg :: run .ok s exportEnv refs fetch := by
  cases h : (runLoop fetch (jsParseInt s) exportEnv refs).2 <;>
    simp [run, validateSubscription, h]

theorem run_ok_all {fetch : SecretRef → Except String String} (s : String) (exportEnv : Bool)
    {refs : List SecretRef} (hall : ∀ r ∈ refs, ∃ v, fetch r = .ok v) :
    run .ok s exportEnv refs fetch =
      (refs.map fun r => (processRef fetch (jsParseInt s) exportEnv r).1).flatten := by
  simp [run, validateSubscription, runLoop_all_ok (jsParseInt s) exportEnv hall]

theorem run_ok_fail {fetch : SecretRef → Except String String} {pre : List SecretRef}
    {r : SecretRef} {e : String} (s : String) (exportEnv : Bool) (post : List SecretRef)
    (hpre : ∀ r' ∈ pre, ∃ v, fetch r' = .ok v) (he : fetch r = .error e) :
    run .ok s exportEnv (pre ++ r :: post) fetch =
      (pre.map fun r' => (processRef fetch (jsParseInt s) exportEnv r').1).flatten ++
        [Event.fetch r, Event.setFailed (failMsgStart ++ e)] := by
  simp [run, validateSubscription, runLoop_fail (jsParseInt s) exportEnv post hpre he]

theorem flatten_filter_map {α β : Type} (f : α → List β) (p : β → Bool) (g : α → β)
    (l : List α) (h : ∀ a ∈ l, (f a).filter p = [g a]) :
    ((l.map f).flatten).filter p = l.map g := by
  induction l with
  | nil => rfl
  | cons a as ih =>
    rw [List.map_cons, List.flatten_cons, List.filter_append, h a (by simp),
      ih (fun b hb => h b (by simp [hb])), List.map_cons]
    rfl

theorem filter_setOutput_processRef {fetch : SecretRef → Except String String} {r : SecretRef}
    {v : String} (mml : Option Int) (exportEnv : Bool) (h : fetch r = .ok v) :
    ((processRef fetch mml exportEnv r).1).filter isSetOutput = [Event.setOutput r.output v] := by
  rw [processRef_ok mml exportEnv h, maskEvents_eq_filter_map]
  rcases exportEnv <;>
    simp [isSetOutput, List.filter_cons, List.filter_append, List.filter_map, Function.comp_def]

theorem filter_fetch_processRef {fetch : SecretRef → Except String String} {r : SecretRef}
    {v : String} (mml : Option Int) (exportEnv : Bool) (h : fetch r = .ok v) :
    ((processRef fetch mml exportEnv r).1).filter isFetch = [Event.fetch r] := by
  rw [processRef_ok mml exportEnv h, maskEvents_eq_filter_map]
  rcases exportEnv <;>
    simp [isFetch, List.filter_cons, List.filter_append, List.filter_map, Function.comp_def]

/-- The runner keeps, for each output name, the value of the last
`setOutput` call with that name; this folds a trace into that final
binding. -/
def updOutput (name : String) (acc : Option String) (ev : Event) : Option String :=
  match ev with
  | .setOutput n v => if n = name then some v else acc
  | _ => acc

/-- The value an observer of the runner sees for output `name` once the
run is over: the value of the last `setOutput name _` event of the
trace, if any. -/
def finalOutput (trace : List Event) (name : String) : Option String :=
  trace.foldl (updOutput name) none

theorem foldl_updOutput_filter (name : String) (trace : List Event) (acc : Option String) :
    trace.foldl (updOutput name) acc = (trace.filter isSetOutput).foldl (updOutput name) acc := by
  induction trace generalizing acc with
  | nil => rfl
  | cons ev evs ih =>
    rcases ev <;> simp [List.filter_cons, isSetOutput, updOutput, ih]

theorem foldl_updOutput_map (name : String) (val : SecretRef → String) (refs : List SecretRef)
    (acc : Option String) :
    (refs.map fun r => Event.setOutput r.output (val r)).foldl (updOutput name) acc =
      ((refs.filter fun r => r.output = name).getLast?).elim acc (fun r => some (val r)) := by
  induction refs generalizing acc with
  | nil => rfl
  | cons r rs ih =>
    rw [List.map_cons, List.foldl_cons, ih, List.filter_cons]
    by_cases h : r.output = name
    · rw [if_pos (by simpa using h)]
      cases hl : (rs.filter fun r => r.output = name).getLast? with
      | none =>
        rcases hfil : (rs.filter fun r => r.output = name) with _ | ⟨a, t⟩
        · simp [hfil, updOutput, h]
        · rw [hfil] at hl
          simp [List.getLast?] at hl
      | some x =>
        rcases hfil : (rs.filter fun r => r.output = name) with _ | ⟨a, t⟩
        · rw [hfil] at hl
          simp at hl
        · rw [hfil] at hl
          rw [hfil, List.getLast?_cons_cons, hl]
          simp
    · rw [if_neg (by simpa using h)]
      simp [updOutput, h]

theorem run_ok_eq (s : String) (exportEnv : Bool) (refs : List SecretRef)
    (fetch : SecretRef → Except String String) :
    run .ok s exportEnv refs fetch =
      (runLoop fetch (jsParseInt s) exportEnv refs).1 ++
        ((runLoop fetch (jsParseInt s) exportEnv refs).2).elim []
          (fun e => [Event.setFailed (failMsgStart ++ e)]) := by
  cases hl : (runLoop fetch (jsParseInt s) exportEnv refs).2 <;>
    simp [run, validateSubscription, hl]

/-- C1: for every fetched secret value and every integer minimum mask
length, the value is split into lines on `\r\n`, `\r` or `\n`, and the
`setSecret` registrations are exactly the non-empty lines whose length is
at least the minimum, in order; in particular for value `"a\nbb\nccc"`
and minimum 2, `"bb"` and `"ccc"` are registered but `"a"` is not. -/
theorem C1_mask_exactly_long_nonempty_lines :
    (∀ (m : Int) (v : String),
      maskEvents (some m) v =
        ((splitLines v).filter fun l => !l.isEmpty && decide ((l.length : Int) ≥ m)).map
          Event.setSecret) ∧
    maskEvents (some 2) "a\nbb\nccc" = [Event.setSecret "bb", Event.setSecret "ccc"] :=
  ⟨fun m v => maskEvents_eq_filter_map (some m) v, by decide⟩

/-- C2: for a successfully fetched reference, the per-reference event
trace splits at a point before which no publishing (`setOutput` /
`exportVariable`) occurs and after which no masking registration
(`setSecret`) occurs: every masking registration for the value happens
before the value is published through either channel. -/
theorem C2_mask_before_publish (fetch : SecretRef → Except String String) (mml : Option Int)
    (exportEnv : Bool) (ref : SecretRef)
    (hok : (processRef fetch mml exportEnv ref).2 = none) :
    ∃ pre post, (processRef fetch mml exportEnv ref).1 = pre ++ post ∧
      (∀ e ∈ pre, isPublish e = false) ∧ (∀ e ∈ post, isSetSecret e = false) := by
  rcases hf : fetch ref with e | v
  · rw [processRef_error mml exportEnv hf] at hok
    simp at hok
  · refine ⟨Event.fetch ref :: maskEvents mml v,
      [Event.setOutput ref.output v] ++
        (if exportEnv then [Event.exportVariable ref.output v] else []), ?_, ?_, ?_⟩
    · rw [processRef_ok mml exportEnv hf]
      simp
    · intro e he
      rcases List.mem_cons.mp he with rfl | he
      · rfl
      · obtain ⟨l, rfl⟩ := mem_maskEvents he
        rfl
    · intro e he
      rcases exportEnv
      · simp at he
        subst he
        rfl
      · simp at he
        rcases he with rfl | rfl <;> rfl

theorem C2_witness :
    ∃ pre post,
      (processRef (fun _ => Except.ok "topsecret\nvalue") (some 3) true ⟨"loc", "out"⟩).1 =
        pre ++ post ∧
      (∀ e ∈ pre, isPublish e = false) ∧ (∀ e ∈ post, isSetSecret e = false) :=
  C2_mask_before_publish (fun _ => Except.ok "topsecret\nvalue") (some 3) true
    ⟨"loc", "out"⟩ (by decide)

/-- C5: for a successfully fetched reference, with the export flag false
the named output is set to the value and no environment variable is ever
bound; with the flag true both the output and the same-named environment
variable are set to the identical full value. -/
theorem C5_export_flag (fetch : SecretRef → Except String String) (mml : Option Int)
    (ref : SecretRef) (v : String) (h : fetch ref = .ok v) :
    ((processRef fetch mml false ref).2 = none ∧
      Event.setOutput ref.output v ∈ (processRef fetch mml false ref).1 ∧
      ∀ n w, Event.exportVariable n w ∉ (processRef fetch mml false ref).1) ∧
    ((processRef fetch mml true ref).2 = none ∧
      Event.setOutput ref.output v ∈ (processRef fetch mml true ref).1 ∧
      Event.exportVariable ref.output v ∈ (processRef fetch mml true ref).1) := by
  refine ⟨⟨?_, setOutput_mem_processRef mml false h, ?_⟩,
    ⟨?_, setOutput_mem_processRef mml true h, ?_⟩⟩
  · rw [processRef_ok mml false h]
  · intro n w hm
    rw [processRef_ok mml false h, maskEvents_eq_filter_map] at hm
    simp at hm
  · rw [processRef_ok mml true h]
  · rw [processRef_ok mml true h]
    simp

theorem C5_witness :
    Event.exportVariable "out" "val" ∈
      (processRef (fun _ => Except.ok "val") (some 1) true ⟨"loc", "out"⟩).1 ∧
    (∀ n w, Event.exportVariable n w ∉
      (processRef (fun _ => Except.ok "val") (some 1) false ⟨"loc", "out"⟩).1) :=
  ⟨(C5_export_flag (fun _ => Except.ok "val") (some 1) ⟨"loc", "out"⟩ "val" rfl).2.2.2,
    (C5_export_flag (fun _ => Except.ok "val") (some 1) ⟨"loc", "out"⟩ "val" rfl).1.2.2⟩

/-- C10: on an entitlement 403 the process exits with code 1 inside the
pre-flight check, so the top-level catch never runs: the whole trace is
the support-contact error line followed by the exit, and no `setFailed`
message is ever produced. -/
theorem C10_forbidden_exits_directly (s : String) (exportEnv : Bool) (refs : List SecretRef)
    (fetch : SecretRef → Except String String) :
    run .forbidden s exportEnv refs fetch =
      [Event.errorLog subscriptionMsg, Event.processExit 1] ∧
    (∀ msg, Event.setFailed msg ∉ run .forbidden s exportEnv refs fetch) ∧
    Event.processExit 1 ∈ run .forbidden s exportEnv refs fetch := by
  refine ⟨rfl, ?_, by rw [run_forbidden_eq]; simp⟩
  intro msg hm
  rw [run_forbidden_eq] at hm
  simp at hm

theorem C10_witness :
    Event.setFailed (failMsgStart ++ "x") ∉
      run .forbidden "2" false [⟨"loc", "out"⟩] (fun _ => Except.ok "v") :=
  (C10_forbidden_exits_directly "2" false [⟨"loc", "out"⟩] (fun _ => Except.ok "v")).2.1 _

/-- C3: when the fetch of one reference fails after all earlier fetches
succeeded, the run ends with a `setFailed` carrying the human-readable
message, the output of every earlier reference is still set (no rollback),
and no later reference is ever fetched. -/
theorem C3_fail_stops_no_rollback (s : String) (exportEnv : Bool)
    (fetch : SecretRef → Except String String) (pre post : List SecretRef)
    (r : SecretRef) (e : String)
    (hpre : ∀ r' ∈ pre, ∃ v, fetch r' = .ok v) (he : fetch r = .error e) :
    Event.setFailed (failMsgStart ++ e) ∈ run .ok s exportEnv (pre ++ r :: post) fetch ∧
    (∀ r' ∈ pre, ∃ v, fetch r' = .ok v ∧
      Event.setOutput r'.output v ∈ run .ok s exportEnv (pre ++ r :: post) fetch) ∧
    (∀ r', r' ∉ pre → r' ≠ r →
      Event.fetch r' ∉ run .ok s exportEnv (pre ++ r :: post) fetch) := by
  rw [run_ok_fail s exportEnv post hpre he]
  refine ⟨by simp, ?_, ?_⟩
  · intro r' hr'
    obtain ⟨v, hv⟩ := hpre r' hr'
    refine ⟨v, hv, ?_⟩
    rw [List.mem_append]
    left
    rw [List.mem_flatten]
    exact ⟨_, List.mem_map_of_mem _ hr', setOutput_mem_processRef _ exportEnv hv⟩
  · intro r' hnpre hne hm
    rcases List.mem_append.mp hm with hm | hm
    · obtain ⟨l, hl, hml⟩ := List.mem_flatten.mp hm
      obtain ⟨p, hp, rfl⟩ := List.mem_map.mp hl
      exact hnpre (by rw [fetch_mem_processRef hml]; exact hp)
    · simp at hm
      exact hne hm

theorem C3_witness :
    Event.setFailed (failMsgStart ++ "nope") ∈
      run .ok "2" false [⟨"a", "o1"⟩, ⟨"b", "o2"⟩, ⟨"c", "o3"⟩]
        (fun r => if r.loc = "a" then Except.ok "v1" else Except.error "nope") ∧
    Event.fetch ⟨"c", "o3"⟩ ∉
      run .ok "2" false [⟨"a", "o1"⟩, ⟨"b", "o2"⟩, ⟨"c", "o3"⟩]
        (fun r => if r.loc = "a" then Except.ok "v1" else Except.error "nope") := by
  have h := C3_fail_stops_no_rollback "2" false
    (fun r => if r.loc = "a" then Except.ok "v1" else Except.error "nope")
    [⟨"a", "o1"⟩] [⟨"c", "o3"⟩] ⟨"b", "o2"⟩ "nope"
    (by
      intro r' hr'
      rw [List.mem_singleton] at hr'
      subst hr'
      exact ⟨"v1", rfl⟩)
    rfl
  exact ⟨h.1, h.2.2 _ (by decide) (by decide)⟩

/-- C4: the entitlement pre-flight runs before any fetch; on a 403 the
run is exactly the support-contact error plus exit 1 and no reference is
ever fetched, while on any other failure the run is the informational
line followed by exactly the normal run, which fetches every reference
when all fetches succeed. -/
theorem C4_preflight_soft_check (s : String) (exportEnv : Bool) (refs : List SecretRef)
    (fetch : SecretRef → Except String String) :
    run .forbidden s exportEnv refs fetch =
      [Event.errorLog subscriptionMsg, Event.processExit 1] ∧
    (∀ r, Event.fetch r ∉ run .forbidden s exportEnv refs fetch) ∧
    run .otherFail s exportEnv refs fetch =
      Event.info softFailMsg :: run .ok s exportEnv refs fetch ∧
    ((∀ r ∈ refs, ∃ v, fetch r = .ok v) →
      ∀ r ∈ refs, Event.fetch r ∈ run .otherFail s exportEnv refs fetch) := by
  refine ⟨rfl, ?_, run_otherFail_eq s exportEnv refs fetch, ?_⟩
  · intro r hm
    rw [run_forbidden_eq] at hm
    simp at hm
  · intro hall r hr
    rw [run_otherFail_eq, List.mem_cons]
    right
    rw [run_ok_all s exportEnv hall]
    obtain ⟨v, hv⟩ := hall r hr
    rw [List.mem_flatten]
    refine ⟨_, List.mem_map_of_mem _ hr, ?_⟩
    rw [processRef_ok _ exportEnv hv]
    simp

theorem C4_witness :
    Event.fetch ⟨"loc", "out"⟩ ∈
      run .otherFail "2" false [⟨"loc", "out"⟩] (fun _ => Except.ok "v") ∧
    Event.fetch ⟨"loc", "out"⟩ ∉
      run .forbidden "2" false [⟨"loc", "out"⟩] (fun _ => Except.ok "v") := by
  have h := C4_preflight_soft_check "2" false [⟨"loc", "out"⟩] (fun _ => Except.ok "v")
  exact ⟨h.2.2.2 (fun r hr => ⟨"v", rfl⟩) _ (by simp), h.2.1 _⟩

/-- C6 counterexample: with `min_mask_length` input `"abc"` (not a valid
integer) and a successfully fetching reference, the run produces no
`setFailed` at all — the claimed `ConfigError` failure does not happen. -/
theorem C6_counterexample :
    ¬ ∃ msg, Event.setFailed msg ∈
      run .ok "abc" false [⟨"a", "out"⟩] (fun _ => Except.ok "value") := by
  intro hex
  obtain ⟨msg, hm⟩ := hex
  have heq : run .ok "abc" false [⟨"a", "out"⟩] (fun _ => Except.ok "value") =
      [Event.fetch ⟨"a", "out"⟩, Event.setOutput "out" "value"] := by decide
  rw [heq] at hm
  simp at hm

/-- C6 amended: an unparseable `min_mask_length` is not an error at all:
`parseInt` yields `NaN`, no failure is reported and no process exit
occurs (when every fetch succeeds), no line is ever registered for
masking, and the output of every reference is still published. -/
theorem C6_amended_no_config_error (s : String) (exportEnv : Bool) (refs : List SecretRef)
    (fetch : SecretRef → Except String String) (hs : jsParseInt s = none)
    (hall : ∀ r ∈ refs, ∃ v, fetch r = .ok v) :
    (∀ msg, Event.setFailed msg ∉ run .ok s exportEnv refs fetch) ∧
    (∀ c, Event.processExit c ∉ run .ok s exportEnv refs fetch) ∧
    (∀ l, Event.setSecret l ∉ run .ok s exportEnv refs fetch) ∧
    (∀ r ∈ refs, ∃ v, fetch r = .ok v ∧
      Event.setOutput r.output v ∈ run .ok s exportEnv refs fetch) := by
  rw [run_ok_all s exportEnv hall]
  refine ⟨?_, ?_, ?_, ?_⟩
  · intro msg hm
    obtain ⟨l, hl, hml⟩ := List.mem_flatten.mp hm
    obtain ⟨p, hp, rfl⟩ := List.mem_map.mp hl
    exact setFailed_not_mem_processRef hml
  · intro c hm
    obtain ⟨l, hl, hml⟩ := List.mem_flatten.mp hm
    obtain ⟨p, hp, rfl⟩ := List.mem_map.mp hl
    exact processExit_not_mem_processRef hml
  · intro l hm
    obtain ⟨lst, hl, hml⟩ := List.mem_flatten.mp hm
    obtain ⟨p, hp, rfl⟩ := List.mem_map.mp hl
    obtain ⟨v, -, hmask⟩ := setSecret_mem_processRef hml
    rw [hs, maskEvents_none] at hmask
    simp at hmask
  · intro r hr
    obtain ⟨v, hv⟩ := hall r hr
    exact ⟨v, hv, List.mem_flatten.mpr
      ⟨_, List.mem_map_of_mem _ hr, setOutput_mem_processRef _ exportEnv hv⟩⟩

theorem C6_amended_witness :
    Event.setFailed (failMsgStart ++ "x") ∉
      run .ok "abc" false [⟨"a", "out"⟩] (fun _ => Except.ok "value") := by
  have h := C6_amended_no_config_error "abc" false [⟨"a", "out"⟩]
    (fun _ => Except.ok "value") (by decide) (fun r hr => ⟨"value", rfl⟩)
  exact h.1 _

/-- C7: references are processed strictly sequentially in parsed order:
when every fetch succeeds the whole trace is the concatenation of the
per-reference fetch-mask-publish blocks in list order, so the `setOutput`
events appear in exactly the order of the references, and so do the
fetches. -/
theorem C7_sequential_order (s : String) (exportEnv : Bool) (refs : List SecretRef)
    (fetch : SecretRef → Except String String) (val : SecretRef → String)
    (hall : ∀ r ∈ refs, fetch r = .ok (val r)) :
    run .ok s exportEnv refs fetch =
      (refs.map fun r => (processRef fetch (jsParseInt s) exportEnv r).1).flatten ∧
    (run .ok s exportEnv refs fetch).filter isSetOutput =
      (refs.map fun r => Event.setOutput r.output (val r)) ∧
    (run .ok s exportEnv refs fetch).filter isFetch = refs.map Event.fetch := by
  have hall' : ∀ r ∈ refs, ∃ v, fetch r = .ok v := fun r hr => ⟨val r, hall r hr⟩
  refine ⟨run_ok_all s exportEnv hall', ?_, ?_⟩
  · rw [run_ok_all s exportEnv hall']
    exact flatten_filter_map _ _ _ refs
      (fun r hr => filter_setOutput_processRef _ exportEnv (hall r hr))
  · rw [run_ok_all s exportEnv hall']
    exact flatten_filter_map _ _ _ refs
      (fun r hr => filter_fetch_processRef _ exportEnv (hall r hr))

theorem C7_witness :
    (run .ok "2" false [⟨"a", "o1"⟩, ⟨"b", "o2"⟩]
      (fun r => Except.ok r.loc)).filter isSetOutput =
      [Event.setOutput "o1" "a", Event.setOutput "o2" "b"] := by
  have h := C7_sequential_order "2" false [⟨"a", "o1"⟩, ⟨"b", "o2"⟩]
    (fun r => Except.ok r.loc) (fun r => r.loc) (fun r hr => rfl)
  exact h.2.1

/-- C8: when the `min_mask_length` input does not parse as an integer,
`parseInt` yields `NaN` (modelled `none`), every length comparison is
false, so no line of any value is ever registered for masking; yet the
run does not fail for this reason and still publishes every output when
the fetches succeed. -/
theorem C8_nan_disables_masking (s : String) (exportEnv : Bool) (refs : List SecretRef)
    (fetch : SecretRef → Except String String) (hs : jsParseInt s = none) :
    (∀ v, maskEvents (jsParseInt s) v = []) ∧
    (∀ l, Event.setSecret l ∉ run .ok s exportEnv refs fetch) ∧
    ((∀ r ∈ refs, ∃ v, fetch r = .ok v) →
      (∀ msg, Event.setFailed msg ∉ run .ok s exportEnv refs fetch) ∧
      (∀ r ∈ refs, ∃ v, fetch r = .ok v ∧
        Event.setOutput r.output v ∈ run .ok s exportEnv refs fetch)) := by
  refine ⟨fun v => by rw [hs, maskEvents_none], ?_, ?_⟩
  · intro l hm
    rw [run_ok_eq] at hm
    rcases List.mem_append.mp hm with hm | hm
    · obtain ⟨r, hr, hml⟩ := mem_runLoop hm
      obtain ⟨v, -, hmask⟩ := setSecret_mem_processRef hml
      rw [hs, maskEvents_none] at hmask
      simp at hmask
    · rcases h2 : (runLoop fetch (jsParseInt s) exportEnv refs).2 with _ | e2 <;>
        rw [h2] at hm <;> simp at hm
  · intro hall
    rw [run_ok_all s exportEnv hall]
    constructor
    · intro msg hm
      obtain ⟨l, hl, hml⟩ := List.mem_flatten.mp hm
      obtain ⟨p, hp, rfl⟩ := List.mem_map.mp hl
      exact setFailed_not_mem_processRef hml
    · intro r hr
      obtain ⟨v, hv⟩ := hall r hr
      exact ⟨v, hv, List.mem_flatten.mpr
        ⟨_, List.mem_map_of_mem _ hr, setOutput_mem_processRef _ exportEnv hv⟩⟩

theorem C8_witness :
    Event.setSecret "value" ∉
      run .ok "" false [⟨"a", "out"⟩] (fun _ => Except.ok "value") := by
  have h := C8_nan_disables_masking "" false [⟨"a", "out"⟩]
    (fun _ => Except.ok "value") (by decide)
  exact h.2.1 _

/-- C9: when two references share an output name, `setOutput` is still
invoked once per reference in list order, and the final value an
observer sees for a name is the value of the last such reference
(last-write-wins). -/
theorem C9_last_write_wins (s : String) (exportEnv : Bool) (refs : List SecretRef)
    (fetch : SecretRef → Except String String) (val : SecretRef → String)
    (hall : ∀ r ∈ refs, fetch r = .ok (val r)) :
    ((run .ok s exportEnv refs fetch).filter isSetOutput).length = refs.length ∧
    (∀ name, finalOutput (run .ok s exportEnv refs fetch) name =
      ((refs.filter fun r => r.output = name).getLast?).map (fun r => val r)) := by
  have hfil : (run .ok s exportEnv refs fetch).filter isSetOutput =
      refs.map fun r => Event.setOutput r.output (val r) := by
    rw [run_ok_all s exportEnv (fun r hr => ⟨val r, hall r hr⟩)]
    exact flatten_filter_map _ _ _ refs
      (fun r hr => filter_setOutput_processRef _ exportEnv (hall r hr))
  constructor
  · rw [hfil, List.length_map]
  · intro name
    rw [finalOutput, foldl_updOutput_filter, hfil, foldl_updOutput_map]
    cases (refs.filter fun r => r.output = name).getLast? <;> rfl

theorem C9_witness :
    finalOutput
      (run .ok "2" false [⟨"a", "dup"⟩, ⟨"b", "dup"⟩] (fun r => Except.ok r.loc)) "dup" =
      some "b" := by
  have h := C9_last_write_wins "2" false [⟨"a", "dup"⟩, ⟨"b", "dup"⟩]
    (fun r => Except.ok r.loc) (fun r => r.loc) (fun r hr => rfl)
  rw [h.2 "dup"]
  decide
/-- Sanity check of the line-split model on the three separators. -/
theorem splitLines_separators :
    splitLines "a\r\n\rb" = ["a", "", "b"] ∧ splitLines "" = [""] ∧
    splitLines "x\ny" = ["x", "y"] := by decide

/-- Sanity check of the parseInt model: NaN on non-numeric or empty
input, longest signed decimal otherwise. -/
theorem jsParseInt_cases :
    jsParseInt "abc" = none ∧ jsParseInt "" = none ∧
    jsParseInt "  -42x" = some (-42) ∧ jsParseInt "7" = some 7 := by decide
